import Mathlib

/-!
Verification of the `dynauto` job-status tracking library
(`dynauto/jobctrl.py`, `dynauto/influxdb_utils.py`) against its
natural-language specification.

The time-series store (InfluxDB) is modelled as a list of points kept in
timestamp order (the embedding's list order is the time order; every write
appends at the end).  Query results are modelled semantically, following the
collaborator contract of the spec (§6): a query returns rows as mappings from
column name to value; the column of a `last(f)` aggregation over a wildcard is
named by prefixing the field name with `last_`, a `sum` over such a column is
named `sum_last_<f>`, and column/field names are case-sensitive.  Python
dictionaries are modelled as insertion-ordered association lists, fatal
`sys.exit` calls and Python exceptions (`KeyError`, `IndexError`, `TypeError`)
as the `.error` case of `Except String`, and every stateful operation
explicitly threads the store.
-/

namespace Dynauto

/-- A field value stored on a point: InfluxDB fields are numeric or string. -/
inductive FVal where
  | int (n : Int)
  | str (s : String)
deriving DecidableEq

/-- Python truthiness of a field value (`if point[...]:`). -/
def FVal.truthy : FVal → Bool
  | .int n => n != 0
  | .str s => s != ""

/-- The job status enumeration (source: `class JobStatus`, jobctrl.py). -/
inductive JobStatus where
  | IDLE
  | RUNNING
  | FAILED
  | DONE
deriving DecidableEq

/-- `JobStatus.<member>.name`: the (uppercase) member name. -/
def JobStatus.name : JobStatus → String
  | .IDLE => "IDLE"
  | .RUNNING => "RUNNING"
  | .FAILED => "FAILED"
  | .DONE => "DONE"

/-- `JobStatus.statuses()`: the member names in declaration order
(source: `cls.__members__.keys()`). -/
def JobStatus.statuses : List String :=
  [JobStatus.IDLE.name, JobStatus.RUNNING.name, JobStatus.FAILED.name, JobStatus.DONE.name]

/-- One time-series record.  `tags` and `fields` are insertion-ordered
association lists, as the Python dicts they embed. -/
structure Point where
  measurement : String
  tags : List (String × String)
  time : Nat
  fields : List (String × FVal)
deriving DecidableEq

deriving instance DecidableEq for Except

/-- The store: all points, in timestamp order (append-only). -/
abbrev Store := List Point

/-- Python dict assignment `d[k] = v` on an insertion-ordered dict:
overwrite the binding in place if the key exists, else append. -/
def updAssoc : List (String × FVal) → String → FVal → List (String × FVal)
  | [], k, v => [(k, v)]
  | e :: rest, k, v => if e.1 = k then (k, v) :: rest else e :: updAssoc rest k v

/-- Python `d.update(kvs)`: assign every pair of `kvs` in order. -/
def updateAll (m : List (String × FVal)) (kvs : List (String × FVal)) : List (String × FVal) :=
  kvs.foldl (fun acc e => updAssoc acc e.1 e.2) m

/-- `sanity_check` (influxdb_utils.py): `False` iff some point has a field
key that also occurs among its tag keys; otherwise `True`.  It reads the
points and writes nothing. -/
def sanity_check (data : List Point) : Bool :=
  data.all (fun p => !(p.fields.any (fun f => (p.tags.map Prod.fst).contains f.1)))

/-- The character-list engine of Python's `key.replace('last_', '')`:
delete every non-overlapping occurrence of `last_`, scanning left to right. -/
def stripChars : List Char → List Char
  | 'l' :: 'a' :: 's' :: 't' :: '_' :: rest => stripChars rest
  | c :: rest => c :: stripChars rest
  | [] => []

/-- `key.replace('last_', '')` as used by `reformat_last` (influxdb_utils.py). -/
def stripLast (s : String) : String := ⟨stripChars s.data⟩

/-- `reformat_last` applied to one result row: strip `last_` from every
column name (the row is a dict rebuilt key by key). -/
def reformatRecord (r : List (String × FVal)) : List (String × FVal) :=
  r.map (fun e => (stripLast e.1, e.2))

/-- The controller identity: one `(task, campaign, block)` triple
(source: `JobCtrl.__init__`, which also opens the database connection —
connection parameters are external configuration and are not modelled). -/
structure JobCtrl where
  task : String
  campaign : String
  block : Int
deriving DecidableEq

/-- `global_data["tags"]`: the task-identity tags (block is formatted with
`str` both here and when the point is written). -/
def JobCtrl.tags (c : JobCtrl) : List (String × String) :=
  [("task", c.task), ("campaign", c.campaign), ("block", toString c.block)]

/-- One iteration of the `match_tags` loop in `__init__`: separate with
` AND ` when the accumulator is non-empty, then append the
`"t" = 'v'` clause (single quotes written as `\x27`). -/
def buildStep (acc : String) (e : String × String) : String :=
  (if acc = "" then acc else acc ++ " AND ") ++ "\"" ++ e.1 ++ "\" = \x27" ++ e.2 ++ "\x27"

/-- The `match_tags` filter string built in `__init__`. -/
def buildMatchTags (tags : List (String × String)) : String :=
  tags.foldl buildStep ""

/-- The reusable tag-equality filter expression of a controller. -/
def JobCtrl.match_tags (c : JobCtrl) : String := buildMatchTags c.tags

/-- `JobCtrl.__init__`: fatal if the task argument is absent (`None`);
any present task string (empty included) is accepted. -/
def JobCtrl.init (task : Option String) (campaign : String) (block : Int) :
    Except String JobCtrl :=
  match task with
  | none => .error "[JobCtrl::init] The task field is mandatory"
  | some t => .ok ⟨t, campaign, block⟩

/-- Value of tag `k` on a point; a missing tag reads as the empty string,
matching the store's tag-comparison semantics. -/
def tagVal (p : Point) (k : String) : String := (p.tags.lookup k).getD ""

/-- Semantics of `WHERE <match_tags>` on measurement `job`: the point is in
measurement `job` and its task/campaign/block tags equal the controller's. -/
def matchPt (c : JobCtrl) (p : Point) : Bool :=
  p.measurement == "job" && tagVal p "task" == c.task &&
    tagVal p "campaign" == c.campaign && tagVal p "block" == toString c.block

/-- All points of the controller's task, in time order. -/
def taskPoints (c : JobCtrl) (store : Store) : List Point := store.filter (matchPt c)

/-- The `id` tag of a point (the `GROUP BY "id"` key). -/
def ptId (p : Point) : String := tagVal p "id"

/-- Semantics of `WHERE <match_tags> AND "id" = '<jid>'`. -/
def jobPoints (c : JobCtrl) (store : Store) (jid : String) : List Point :=
  store.filter (fun p => matchPt c p && ptId p == jid)

/-- `task_exist`: true iff the `SELECT * WHERE <match_tags>` result is
non-empty. -/
def task_exist (c : JobCtrl) (store : Store) : Bool :=
  decide (0 < (taskPoints c store).length)

/-- `last(f)` over a point list: the value of `f` on the latest point where
`f` is non-null. -/
def lastField (pts : List Point) (f : String) : Option FVal :=
  pts.reverse.findSome? (fun p => p.fields.lookup f)

/-- All distinct field keys occurring on a point list (the columns a
wildcard query reports). -/
def fieldKeys (pts : List Point) : List String :=
  (pts.map (fun p => p.fields.map Prod.fst)).flatten.dedup

/-- The single row returned by `SELECT last(*)` over `pts` (pts non-empty):
for each field key `f`, a column named `last_<f>` holding `last(f)`. -/
def lastStarRaw (pts : List Point) : List (String × FVal) :=
  (fieldKeys pts).filterMap
    (fun f => (lastField pts f).map (fun v => ("last_" ++ f, v)))

/-- The full `SELECT last(*)` row: a `time` column (whose value is never read
by the source — it is skipped by name) followed by the `last_` columns. -/
def prevRecord (pts : List Point) : List (String × FVal) :=
  ("time", FVal.int 0) :: lastStarRaw pts

/-- One point of `create_task`: a copy of `global_data` with measurement
`job`, the task tags plus `id = str(jid)`, the submission time, all statuses
zero, `IDLE` set to 1, then the caller's per-job fields assigned in order
(dict assignment, so a caller field may even overwrite a status flag). -/
def mkIdlePoint (c : JobCtrl) (now : Nat) (jid : String)
    (fl : List (String × FVal)) : Point :=
  let base := JobStatus.statuses.map (fun s => (s, FVal.int 0))
  let base := updAssoc base JobStatus.IDLE.name (FVal.int 1)
  { measurement := "job"
    tags := c.tags ++ [("id", jid)]
    time := now
    fields := updateAll base fl }

/-- The point list built by `create_task`.  `fields` mirrors the Python
parameter: `none` (or an empty list, which is falsy) means no per-job
fields; a non-empty list is indexed per job and raises `IndexError` when it
is shorter than `jids`. -/
def buildPoints (c : JobCtrl) (now : Nat) (jids : List String)
    (fields : Option (List (List (String × FVal)))) : Except String (List Point) :=
  match fields with
  | none => .ok (jids.map (fun j => mkIdlePoint c now j []))
  | some fl =>
    if fl.isEmpty then .ok (jids.map (fun j => mkIdlePoint c now j []))
    else if fl.length < jids.length then .error "IndexError: list index out of range"
    else .ok ((jids.zip fl).map (fun e => mkIdlePoint c now e.1 e.2))

/-- `create_task` (jobctrl.py): checks, optional delete, build, validate,
batch write.  The boolean in the result is the returned value, the `.error`
case a fatal `sys.exit`; the second component is the store afterwards. -/
def create_task (c : JobCtrl) (now : Nat) (jids : List String)
    (fields : Option (List (List (String × FVal)))) (recreate : Bool)
    (store : Store) : Except String Bool × Store :=
  if jids = [] then
    (.error "[JobCtrl::createTask] Job ids list is empty", store)
  else if task_exist c store && !recreate then
    (.error "[JobCtrl::createTask] Task already exist for campaign", store)
  else
    -- DELETE FROM "job" WHERE <match_tags>
    let store1 := if recreate then store.filter (fun p => !(matchPt c p)) else store
    match buildPoints c now jids fields with
    | .error e => (.error e, store1)
    | .ok ps =>
      if !(sanity_check ps) then (.ok false, store1)
      else (.ok true, store1 ++ ps)

/-- The merge loop of `set_status`: for every item of the (updated) previous
record, assign it onto the new point's fields when its key is not already a
field key and is not `time`. -/
def mergeFields (acc : List (String × FVal)) : List (String × FVal) → List (String × FVal)
  | [] => acc
  | e :: rest =>
    if (acc.map Prod.fst).contains e.1 || e.1 == "time" then mergeFields acc rest
    else mergeFields (acc ++ [e]) rest

/-- The point built by `set_status` before its consistency checks: template
fields with the target status set to 1, merged with the caller fields and the
carried-forward previous record `prev` (already `last_`-stripped). -/
def mkNextPoint (c : JobCtrl) (now : Nat) (jid : String) (status : JobStatus)
    (fields : Option (List (String × FVal))) (prev : List (String × FVal)) : Point :=
  let base := JobStatus.statuses.map (fun s => (s, FVal.int 0))
  let base := updAssoc base status.name (FVal.int 1)
  let prevUpd := match fields with
    | none => prev
    | some fl => updateAll prev fl
  { measurement := "job"
    tags := c.tags ++ [("id", jid)]
    time := now
    fields := mergeFields base prevUpd }

/-- `sum([data["fields"][sts] for sts in statuses])`: the status flags must
all be present integers (they are, by construction); a missing key would be a
`KeyError`, a string a `TypeError`. -/
def statusFlagSum (fs : List (String × FVal)) : Except String Int :=
  JobStatus.statuses.foldr
    (fun s acc => do
      let t ← acc
      match fs.lookup s with
      | some (.int n) => pure (n + t)
      | some (.str _) => .error "TypeError: unsupported operand"
      | none => .error "KeyError: status flag missing")
    (.ok 0)

/-- `set_status` (jobctrl.py): fatal on a missing job id, on an unknown job,
on an invalid status, and on a status-flag sum different from 1; returns
`false` without writing when `sanity_check` rejects the point, else appends
the point and returns the write success. -/
def set_status (c : JobCtrl) (now : Nat) (jid : Option String) (status : JobStatus)
    (fields : Option (List (String × FVal))) (store : Store) :
    Except String Bool × Store :=
  match jid with
  | none => (.error "[JobCtrl::set_status] Please specify a vaild job id", store)
  | some jid =>
    let jpts := jobPoints c store jid
    if jpts = [] then
      (.error "[JobCtrl::set_status] Job not found in task. Please submit the task first using JobCtrl::createTask", store)
    else if !(JobStatus.statuses.contains status.name) then
      (.error "[JobCtrl::set_status] Specified status is not valid", store)
    else
      let prev := reformatRecord (prevRecord jpts)
      let p := mkNextPoint c now jid status fields prev
      match statusFlagSum p.fields with
      | .error e => (.error e, store)
      | .ok n =>
        if n ≠ 1 then
          (.error "[JobCtrl::set_status] More then one status is being set for the same job", store)
        else if !(sanity_check [p]) then (.ok false, store)
        else (.ok true, store ++ [p])

/-- The textual timestamp of a point as the store reports it (the embedding
renders the `%Y-%m-%dT%H:%M:%SZ` format as the decimal timestamp). -/
def fmtTime (t : Nat) : String := toString t

/-- `datetime.strptime` on the store's textual timestamp format. -/
def parseTime (s : String) : Except String Nat :=
  match s.toNat? with
  | some t => .ok t
  | none => .error "ValueError: time data does not match format"

/-- One row of `SELECT * FROM "job"`: the `time` column followed by the
point's fields and its tags (tags are reported as string columns). -/
def selectStarRow (p : Point) : List (String × FVal) :=
  ("time", FVal.str (fmtTime p.time)) ::
    (p.fields ++ p.tags.map (fun t => (t.1, FVal.str t.2)))

/-- `get_job(jid, last=False)`: the full history of the job's points as
`SELECT *` rows. -/
def get_job_full (c : JobCtrl) (store : Store) (jid : String) :
    List (List (String × FVal)) :=
  (jobPoints c store jid).map selectStarRow

/-- `get_job(jid, last=True)`: the reformatted `SELECT last(*)` row list
(empty when the job has no point). -/
def get_job_last (c : JobCtrl) (store : Store) (jid : String) :
    List (List (String × FVal)) :=
  let jpts := jobPoints c store jid
  if jpts = [] then [] else [reformatRecord (prevRecord jpts)]

/-- `get_nretries` (jobctrl.py): iterate the job's history rows and count the
truthy values of column `failed` — a column of that (lowercase) name is read
with a plain dict access, so a row without it raises `KeyError`. -/
def get_nretries (c : JobCtrl) (store : Store) (jid : String) : Except String Nat :=
  (get_job_full c store jid).foldl
    (fun acc row => do
      let n ← acc
      match row.lookup "failed" with
      | none => .error "KeyError: failed"
      | some v => pure (if v.truthy then n + 1 else n))
    (.ok 0)

/-- The distinct `GROUP BY "id"` keys of a point list. -/
def jobIds (pts : List Point) : List String := (pts.map ptId).dedup

/-- The points of one `GROUP BY "id"` group. -/
def jobGroup (pts : List Point) (j : String) : List Point :=
  pts.filter (fun p => ptId p == j)

/-- Python `data[status] > 0` on an aggregated row value: an integer
comparison; a null (absent) or string value raises `TypeError`. -/
def cmpGt0 : Option FVal → Except String Bool
  | some (.int n) => .ok (decide (0 < n))
  | _ => .error "TypeError: unorderable"

/-- Monadic filter used to fold the per-group comparisons of `get_jobs`,
propagating the first raised error. -/
def tryFilter (p : α → Except String Bool) : List α → Except String (List α)
  | [] => .ok []
  | a :: as => do
    let b ← p a
    let rest ← tryFilter p as
    pure (if b then a :: rest else rest)

/-- Monadic map companion of `tryFilter`. -/
def tryMap (f : α → Except String β) : List α → Except String (List β)
  | [] => .ok []
  | a :: as => do
    let b ← f a
    let rest ← tryMap f as
    pure (b :: rest)

/-- `get_jobs` (jobctrl.py): `SELECT last("<sts>") AS "<sts>" ... GROUP BY
"id"`, then one bucket per status name holding every group id whose last
value of that status field is `> 0`. -/
def get_jobs (c : JobCtrl) (store : Store) :
    Except String (List (String × List String)) :=
  let pts := taskPoints c store
  let ids := jobIds pts
  tryMap
    (fun sts =>
      (tryFilter (fun j => cmpGt0 (lastField (jobGroup pts j) sts)) ids).map
        (fun l => (sts, l)))
    JobStatus.statuses

/-- Python `jobs[key]`: dict access, `KeyError` when the key is absent. -/
def dictGet (m : List (String × α)) (k : String) : Except String α :=
  match m.lookup k with
  | some v => .ok v
  | none => .error ("KeyError: " ++ k)

/-- `get_idle`: indexes the `get_jobs` result with the uppercase key. -/
def get_idle (c : JobCtrl) (store : Store) : Except String (List String) :=
  get_jobs c store >>= fun m => dictGet m "IDLE"

/-- `get_running`: indexes the `get_jobs` result with a lowercase key. -/
def get_running (c : JobCtrl) (store : Store) : Except String (List String) :=
  get_jobs c store >>= fun m => dictGet m "running"

/-- `get_failed`: indexes the `get_jobs` result with a lowercase key. -/
def get_failed (c : JobCtrl) (store : Store) : Except String (List String) :=
  get_jobs c store >>= fun m => dictGet m "failed"

/-- `get_done`: indexes the `get_jobs` result with a lowercase key. -/
def get_done (c : JobCtrl) (store : Store) : Except String (List String) :=
  get_jobs c store >>= fun m => dictGet m "done"

/-- The single row of `SELECT sum(*) FROM (SELECT last(*) ... GROUP BY id)`,
before reformatting and without its `time` column: for every field key with
at least one numeric per-group last value, a column `sum_last_<f>` holding
the sum of those values (string fields have no sum column). -/
def sumStarRow (c : JobCtrl) (store : Store) : List (String × FVal) :=
  let pts := taskPoints c store
  (fieldKeys pts).filterMap
    (fun f =>
      let vals := (jobIds pts).filterMap
        (fun j =>
          match lastField (jobGroup pts j) f with
          | some (.int n) => some n
          | _ => none)
      if vals.isEmpty then none
      else some ("sum_last_" ++ f, FVal.int vals.sum))

/-- Python `'sum' in k`: substring containment. -/
def containsSum (k : String) : Bool := (k.splitOn "sum").length != 1

/-- `sum([n for k, n in row.items() if 'sum' in k])`: sum the values of the
`sum` columns; a string value would raise `TypeError`. -/
def sumColumns (row : List (String × FVal)) : Except String Int :=
  (row.filter (fun e => containsSum e.1)).foldr
    (fun e acc => do
      let t ← acc
      match e.2 with
      | .int n => pure (n + t)
      | .str _ => .error "TypeError: unsupported operand")
    (.ok 0)

/-- Python `v == t` between a row value and an integer: false on a string. -/
def fvalEqInt (v : FVal) (t : Int) : Bool :=
  match v with
  | .int n => n == t
  | .str _ => false

/-- `task_completed` (jobctrl.py): reformat the aggregated sum row (so its
columns are named `sum_<f>`), then compare the value of column `sum_done`
(a plain lowercase dict access) with the sum of all `sum` columns; `False`
when the query returned no row. -/
def task_completed (c : JobCtrl) (store : Store) : Except String Bool :=
  let pts := taskPoints c store
  let raw := sumStarRow c store
  if pts.isEmpty || raw.isEmpty then .ok false
  else
    let row := reformatRecord (("time", FVal.int 0) :: raw)
    match row.lookup "sum_done" with
    | none => .error "KeyError: sum_done"
    | some v => do
      let t ← sumColumns row
      pure (fvalEqInt v t)

/-- `task_end_time` (jobctrl.py): `None` when the task is not completed;
otherwise read the row of `SELECT last("done")` — a query over a (lowercase)
field this library never writes — and parse its `time` column;
`task_sts[0]` on the empty result raises `IndexError`. -/
def task_end_time (c : JobCtrl) (store : Store) : Except String (Option Nat) := do
  let b ← task_completed c store
  if !b then pure none
  else
    let donePts := (taskPoints c store).filter (fun p => (p.fields.lookup "done").isSome)
    match donePts.getLast? with
    | none => .error "IndexError: list index out of range"
    | some p => do
      let t ← parseTime (fmtTime p.time)
      pure (some t)

/-- Per-point status invariant of the spec (§3): every canonical status flag
is present as an integer, exactly one of them is 1 and the others are 0. -/
def statusPoint (p : Point) : Prop :=
  ∃ s ∈ JobStatus.statuses,
    p.fields.lookup s = some (FVal.int 1) ∧
      ∀ s' ∈ JobStatus.statuses, s' ≠ s → p.fields.lookup s' = some (FVal.int 0)

instance (p : Point) : Decidable (statusPoint p) := by
  unfold statusPoint; infer_instance

/-- Pure form of the `data[status] > 0` classification of `get_jobs`, defined
for proofs: true iff the last value of field `sts` in job `j`'s group is an
integer greater than zero. -/
def classifyB (pts : List Point) (j : String) (sts : String) : Bool :=
  match lastField (jobGroup pts j) sts with
  | some (.int n) => decide (0 < n)
  | _ => false

/-- The bucket of one status in a `get_jobs` result. -/
def bucketOf (buckets : List (String × List String)) (sts : String) : List String :=
  (buckets.lookup sts).getD []

/-! ## Concrete scenario stores (reachable through the controller's own
operations), used by several claims below -/

/-- A controller for task `t`, campaign `c`, block 0. -/
def demoCtrl : JobCtrl := ⟨"t", "c", 0⟩

/-- The store after `create_task(jids=["0"])`. -/
def seedStore : Store := (create_task demoCtrl 0 ["0"] none false []).2

/-- `seedStore` after `done(jid="0")`: a task whose every job's most recent
status is DONE. -/
def doneStore : Store := (set_status demoCtrl 1 (some "0") .DONE none seedStore).2

/-- The store of the spec's retry example: `create_task(jids=["5"])`,
`failed`, `running`, `failed`, `done`. -/
def retryStore : Store :=
  (set_status demoCtrl 4 (some "5") .DONE none
    (set_status demoCtrl 3 (some "5") .FAILED none
      (set_status demoCtrl 2 (some "5") .RUNNING none
        (set_status demoCtrl 1 (some "5") .FAILED none
          (create_task demoCtrl 0 ["5"] none false []).2).2).2).2).2

/-- The single point `create_task` builds in the C7 counterexample: the
caller field `task` collides with the tag `task`. -/
def c7BuiltPoint : Point :=
  { measurement := "job"
    tags := [("task", "t"), ("campaign", "c"), ("block", "0"), ("id", "0")]
    time := 5
    fields := [("IDLE", .int 1), ("RUNNING", .int 0), ("FAILED", .int 0),
               ("DONE", .int 0), ("task", .int 1)] }

/-- The point `create_task` builds for job `1` at time 7 (used to discharge
the build hypothesis of the C7 witness). -/
def c7WitnessPoint : Point :=
  { measurement := "job"
    tags := [("task", "t"), ("campaign", "c"), ("block", "0"), ("id", "1")]
    time := 7
    fields := [("IDLE", .int 1), ("RUNNING", .int 0), ("FAILED", .int 0),
               ("DONE", .int 0)] }

/-- `seedStore` after `running(jid="0", fields={"x": 5})`: the job's most
recent point carries the auxiliary field `x`. -/
def auxStore : Store :=
  (set_status demoCtrl 1 (some "0") .RUNNING (some [("x", .int 5)]) seedStore).2

/-- The point `set_status` writes in the `auxStore` step, spelled out. -/
def auxPt : Point :=
  { measurement := "job"
    tags := [("task", "t"), ("campaign", "c"), ("block", "0"), ("id", "0")]
    time := 1
    fields := [("IDLE", .int 0), ("RUNNING", .int 1), ("FAILED", .int 0),
               ("DONE", .int 0), ("x", .int 5)] }

/-- `seedStore` after `running(jid="0", fields={"last_x": 7})`: an auxiliary
field whose name contains the store's `last_` aggregation prefix. -/
def auxMangleStore : Store :=
  (set_status demoCtrl 1 (some "0") .RUNNING (some [("last_x", .int 7)]) seedStore).2

/-- The spec's per-task invariant (§3) over a whole store: every point of
the task satisfies `statusPoint`. -/
def statusInv (c : JobCtrl) (store : Store) : Prop :=
  ∀ p ∈ taskPoints c store, statusPoint p

instance (c : JobCtrl) (store : Store) : Decidable (statusInv c store) := by
  unfold statusInv; infer_instance

/-! ## General helper lemmas -/

theorem lookup_eq_none_of_not_mem {β : Type} (m : List (String × β)) (k : String)
    (h : k ∉ m.map Prod.fst) : m.lookup k = none := by
  induction m with
  | nil => rfl
  | cons e rest ih =>
    simp only [List.map_cons, List.mem_cons] at h
    push_neg at h
    have hne : (k == e.1) = false := by simpa using h.1
    simp [List.lookup, hne, ih h.2]

theorem lookup_append {β : Type} (l₁ l₂ : List (String × β)) (k : String) :
    (l₁ ++ l₂).lookup k = ((l₁.lookup k).orElse fun _ => l₂.lookup k) := by
  induction l₁ with
  | nil => simp [List.lookup]
  | cons e rest ih =>
    simp only [List.cons_append, List.lookup]
    by_cases hk : (k == e.1) = true
    · simp [hk]
    · rw [Bool.not_eq_true] at hk
      simp [hk, ih]

theorem lookup_map_pair {β : Type} (ks : List String) (g : String → β) (k : String)
    (h : k ∈ ks) : (ks.map (fun s => (s, g s))).lookup k = some (g k) := by
  induction ks with
  | nil => simp at h
  | cons s rest ih =>
    simp only [List.map_cons, List.lookup]
    by_cases hk : (k == s) = true
    · have heq : k = s := by simpa using hk
      simp [hk, heq]
    · have hne : k ≠ s := by simpa using hk
      rw [Bool.not_eq_true] at hk
      rcases List.mem_cons.mp h with h' | h'
      · exact absurd h' hne
      · simp [hk, ih h']

theorem lookup_map_pair_none {β : Type} (ks : List String) (g : String → β) (k : String)
    (h : k ∉ ks) : (ks.map (fun s => (s, g s))).lookup k = none := by
  apply lookup_eq_none_of_not_mem
  simpa using h

theorem getLast?_mem {α : Type} {l : List α} {a : α} (h : l.getLast? = some a) : a ∈ l := by
  rcases List.mem_getLast?_eq_getLast (Option.mem_def.mpr h) with ⟨hne, ha⟩
  rw [ha]
  exact List.getLast_mem hne

theorem lastField_of_getLast {pts : List Point} {q : Point} {f : String} {v : FVal}
    (hq : pts.getLast? = some q) (hv : q.fields.lookup f = some v) :
    lastField pts f = some v := by
  unfold lastField
  have hr : pts.reverse.head? = some q := by rw [List.head?_reverse, hq]
  cases hrev : pts.reverse with
  | nil => rw [hrev] at hr; simp at hr
  | cons p rest =>
    rw [hrev] at hr
    simp only [List.head?] at hr
    injection hr with hpq
    subst hpq
    simp [List.findSome?_cons, hv]

theorem lookup_updAssoc_self (m : List (String × FVal)) (k : String) (v : FVal) :
    (updAssoc m k v).lookup k = some v := by
  induction m with
  | nil => simp [updAssoc, List.lookup]
  | cons e rest ih =>
    simp only [updAssoc]
    by_cases he : e.1 = k
    · simp [he, List.lookup]
    · simp only [he, if_false]
      simp [List.lookup, beq_false_of_ne (Ne.symm he), ih]

theorem lookup_updAssoc_ne (m : List (String × FVal)) (k : String) (v : FVal)
    (k' : String) (h : k' ≠ k) :
    (updAssoc m k v).lookup k' = m.lookup k' := by
  induction m with
  | nil => simp [updAssoc, List.lookup, beq_false_of_ne h]
  | cons e rest ih =>
    simp only [updAssoc]
    by_cases he : e.1 = k
    · rw [if_pos he]
      have h2 : (k' == e.1) = false := beq_false_of_ne (fun hc => h (hc.trans he))
      simp only [List.lookup, beq_false_of_ne h, h2]
    · rw [if_neg he]
      simp only [List.lookup]
      cases hk : (k' == e.1) with
      | true => rfl
      | false => exact ih

theorem lookup_updateAll (m kvs : List (String × FVal)) (k : String)
    (hnd : (kvs.map Prod.fst).Nodup) :
    (updateAll m kvs).lookup k = ((kvs.lookup k).orElse fun _ => m.lookup k) := by
  induction kvs generalizing m with
  | nil => simp [updateAll, List.lookup]
  | cons e rest ih =>
    simp only [List.map_cons, List.nodup_cons] at hnd
    have step : updateAll m (e :: rest) = updateAll (updAssoc m e.1 e.2) rest := rfl
    rw [step, ih _ hnd.2]
    simp only [List.lookup]
    by_cases hk : k = e.1
    · rw [hk]
      rw [lookup_eq_none_of_not_mem rest e.1 hnd.1]
      simp [lookup_updAssoc_self]
    · rw [beq_false_of_ne hk, lookup_updAssoc_ne _ _ _ _ hk]

theorem mergeFields_suffix (l acc : List (String × FVal)) :
    ∃ t, mergeFields acc l = acc ++ t := by
  induction l generalizing acc with
  | nil => exact ⟨[], by simp [mergeFields]⟩
  | cons e rest ih =>
    simp only [mergeFields]
    by_cases hc : ((acc.map Prod.fst).contains e.1 || e.1 == "time") = true
    · rw [if_pos hc]; exact ih acc
    · rw [if_neg hc]
      obtain ⟨t, ht⟩ := ih (acc ++ [e])
      exact ⟨[e] ++ t, by rw [ht, List.append_assoc]⟩

theorem lookup_mergeFields_left {acc : List (String × FVal)} (l : List (String × FVal))
    {k : String} {v : FVal} (h : acc.lookup k = some v) :
    (mergeFields acc l).lookup k = some v := by
  obtain ⟨t, ht⟩ := mergeFields_suffix l acc
  rw [ht, lookup_append, h]
  rfl

theorem lookup_mergeFields_fresh {l : List (String × FVal)} {k : String} {v : FVal}
    (ht : k ≠ "time") :
    ∀ {acc : List (String × FVal)}, l.lookup k = some v → k ∉ acc.map Prod.fst →
      (mergeFields acc l).lookup k = some v := by
  induction l with
  | nil => intro acc hv hk; simp [List.lookup] at hv
  | cons e rest ih =>
    intro acc hv hk
    simp only [mergeFields]
    by_cases hke : k = e.1
    · have hbeq : (k == e.1) = true := beq_iff_eq.mpr hke
      have hv2 : e.2 = v := by
        simp only [List.lookup, hbeq] at hv
        exact Option.some.inj hv
      have hcontains : (acc.map Prod.fst).contains e.1 = false := by
        cases hmem : (acc.map Prod.fst).contains e.1 with
        | false => rfl
        | true => exact absurd (hke ▸ List.elem_iff.mp hmem) hk
      have htime : (e.1 == "time") = false := beq_false_of_ne (hke ▸ ht)
      rw [if_neg (by rw [hcontains, htime]; simp)]
      apply lookup_mergeFields_left
      rw [lookup_append, lookup_eq_none_of_not_mem acc k hk]
      have hstep : (Option.none : Option FVal).orElse (fun _ => List.lookup k [e]) =
          List.lookup k [e] := rfl
      rw [hstep]
      simp only [List.lookup, hbeq, hv2]
    · have hbeq : (k == e.1) = false := beq_false_of_ne hke
      have hv' : rest.lookup k = some v := by
        simpa only [List.lookup, hbeq] using hv
      by_cases hc : (((acc.map Prod.fst).contains e.1 || e.1 == "time") = true)
      · rw [if_pos hc]; exact ih hv' hk
      · rw [if_neg hc]
        apply ih hv'
        rw [List.map_append, List.mem_append]
        push_neg
        refine ⟨hk, ?_⟩
        simp [hke]

theorem exceptPure {ε α : Type} (x : α) : (pure x : Except ε α) = .ok x := rfl

theorem exceptOkBind {ε α β : Type} (x : α) (f : α → Except ε β) :
    ((Except.ok x : Except ε α) >>= f) = f x := rfl

theorem tryFilter_ok {α : Type} {p : α → Except String Bool} {q : α → Bool} :
    ∀ {l : List α}, (∀ a ∈ l, p a = .ok (q a)) → tryFilter p l = .ok (l.filter q) := by
  intro l
  induction l with
  | nil => intro _; rfl
  | cons a as ih =>
    intro h
    have ha : p a = .ok (q a) := h a (List.mem_cons_self a as)
    have has : tryFilter p as = .ok (as.filter q) :=
      ih (fun b hb => h b (List.mem_cons_of_mem a hb))
    simp only [tryFilter, ha, has, exceptOkBind]
    cases hq : q a <;> simp [List.filter_cons, hq, exceptPure]

theorem tryMap_ok {α β : Type} {f : α → Except String β} {g : α → β} :
    ∀ {l : List α}, (∀ a ∈ l, f a = .ok (g a)) → tryMap f l = .ok (l.map g) := by
  intro l
  induction l with
  | nil => intro _; rfl
  | cons a as ih =>
    intro h
    have ha : f a = .ok (g a) := h a (List.mem_cons_self a as)
    have has : tryMap f as = .ok (as.map g) :=
      ih (fun b hb => h b (List.mem_cons_of_mem a hb))
    simp [tryMap, ha, has, exceptOkBind, exceptPure]

theorem statusFlagSum_of_lookups (fs : List (String × FVal)) (a b c d : Int)
    (h1 : fs.lookup "IDLE" = some (.int a)) (h2 : fs.lookup "RUNNING" = some (.int b))
    (h3 : fs.lookup "FAILED" = some (.int c)) (h4 : fs.lookup "DONE" = some (.int d)) :
    statusFlagSum fs = .ok (a + (b + (c + (d + 0)))) := by
  simp [statusFlagSum, JobStatus.statuses, JobStatus.name, h1, h2, h3, h4]

theorem mkNextPoint_fields (c : JobCtrl) (now : Nat) (jid : String) (st : JobStatus)
    (fl : Option (List (String × FVal))) (prev : List (String × FVal)) :
    (mkNextPoint c now jid st fl prev).fields =
      mergeFields
        (updAssoc (JobStatus.statuses.map (fun s => (s, FVal.int 0))) st.name (FVal.int 1))
        (match fl with | none => prev | some l => updateAll prev l) := rfl

theorem statusFlagSum_mkNextPoint (c : JobCtrl) (now : Nat) (jid : String) (st : JobStatus)
    (fl : Option (List (String × FVal))) (prev : List (String × FVal)) :
    statusFlagSum (mkNextPoint c now jid st fl prev).fields = .ok 1 := by
  rw [mkNextPoint_fields]
  cases st with
  | IDLE =>
    rw [statusFlagSum_of_lookups _ 1 0 0 0
      (lookup_mergeFields_left _ (by decide)) (lookup_mergeFields_left _ (by decide))
      (lookup_mergeFields_left _ (by decide)) (lookup_mergeFields_left _ (by decide))]
    decide
  | RUNNING =>
    rw [statusFlagSum_of_lookups _ 0 1 0 0
      (lookup_mergeFields_left _ (by decide)) (lookup_mergeFields_left _ (by decide))
      (lookup_mergeFields_left _ (by decide)) (lookup_mergeFields_left _ (by decide))]
    decide
  | FAILED =>
    rw [statusFlagSum_of_lookups _ 0 0 1 0
      (lookup_mergeFields_left _ (by decide)) (lookup_mergeFields_left _ (by decide))
      (lookup_mergeFields_left _ (by decide)) (lookup_mergeFields_left _ (by decide))]
    decide
  | DONE =>
    rw [statusFlagSum_of_lookups _ 0 0 0 1
      (lookup_mergeFields_left _ (by decide)) (lookup_mergeFields_left _ (by decide))
      (lookup_mergeFields_left _ (by decide)) (lookup_mergeFields_left _ (by decide))]
    decide

theorem string_eq_of_data {a b : String} (h : a.data = b.data) : a = b := by
  cases a; cases b; exact congrArg String.mk h

theorem str_append_ne_left (a b : String) (h : a ≠ "") : a ++ b ≠ "" := by
  intro hc
  apply h
  have hl := congrArg String.length hc
  rw [String.length_append] at hl
  have h0 : ("" : String).length = 0 := rfl
  rw [h0] at hl
  have ha : a.length = 0 := by omega
  cases a with
  | mk d =>
    cases d with
    | nil => rfl
    | cons c cs => simp [String.length] at ha

theorem str_chunk (a b c : String) (h : a ++ b = c) (X : String) :
    a ++ (b ++ X) = c ++ X := by rw [← String.append_assoc, h]

theorem buildStep_empty (e : String × String) :
    buildStep "" e = "\"" ++ (e.1 ++ ("\" = \x27" ++ (e.2 ++ "\x27"))) := by
  unfold buildStep
  rw [if_pos rfl]
  simp only [String.append_assoc]
  rw [str_chunk "" "\"" "\"" (by decide)]

theorem buildStep_ne (acc : String) (e : String × String) (h : acc ≠ "") :
    buildStep acc e = acc ++ (" AND \"" ++ (e.1 ++ ("\" = \x27" ++ (e.2 ++ "\x27")))) := by
  unfold buildStep
  rw [if_neg h]
  simp only [String.append_assoc]
  rw [str_chunk " AND " "\"" " AND \"" (by decide)]

/-- The filter string a controller derives from its three identity tags. -/
theorem buildMatchTags_triple (t campaign bstr : String) :
    buildMatchTags [("task", t), ("campaign", campaign), ("block", bstr)] =
      "\"task\" = \x27" ++ t ++ "\x27 AND \"campaign\" = \x27" ++ campaign ++
        "\x27 AND \"block\" = \x27" ++ bstr ++ "\x27" := by
  have h1 : buildStep "" ("task", t) = "\"" ++ ("task" ++ ("\" = \x27" ++ (t ++ "\x27"))) :=
    buildStep_empty _
  have hne1 : buildStep "" ("task", t) ≠ "" := by
    rw [h1]; exact str_append_ne_left _ _ (by decide)
  have h2 := buildStep_ne (buildStep "" ("task", t)) ("campaign", campaign) hne1
  have hne2 : buildStep (buildStep "" ("task", t)) ("campaign", campaign) ≠ "" := by
    rw [h2, h1]
    simp only [String.append_assoc]
    exact str_append_ne_left _ _ (by decide)
  have h3 := buildStep_ne _ ("block", bstr) hne2
  show buildStep (buildStep (buildStep "" ("task", t)) ("campaign", campaign)) ("block", bstr) = _
  rw [h3, h2, h1]
  simp only [String.append_assoc]
  rw [str_chunk "\"" "task" "\"task" (by decide)]
  rw [str_chunk "\"task" "\" = \x27" "\"task\" = \x27" (by decide)]
  rw [str_chunk "\x27" " AND \"" "\x27 AND \"" (by decide)]
  rw [str_chunk "\x27 AND \"" "campaign" "\x27 AND \"campaign" (by decide)]
  rw [str_chunk "\x27 AND \"campaign" "\" = \x27" "\x27 AND \"campaign\" = \x27" (by decide)]
  rw [str_chunk "\x27" " AND \"" "\x27 AND \"" (by decide)]
  rw [str_chunk "\x27 AND \"" "block" "\x27 AND \"block" (by decide)]
  rw [str_chunk "\x27 AND \"block" "\" = \x27" "\x27 AND \"block\" = \x27" (by decide)]


theorem statuses_contains_name (st : JobStatus) :
    JobStatus.statuses.contains st.name = true := by cases st <;> rfl

theorem set_status_run (c : JobCtrl) (now : Nat) (jid : String) (st : JobStatus)
    (fl : Option (List (String × FVal))) (store : Store)
    (hne : jobPoints c store jid ≠ []) :
    (sanity_check [mkNextPoint c now jid st fl
        (reformatRecord (prevRecord (jobPoints c store jid)))] = false →
      set_status c now (some jid) st fl store = (.ok false, store)) ∧
    (sanity_check [mkNextPoint c now jid st fl
        (reformatRecord (prevRecord (jobPoints c store jid)))] = true →
      set_status c now (some jid) st fl store =
        (.ok true, store ++ [mkNextPoint c now jid st fl
          (reformatRecord (prevRecord (jobPoints c store jid)))])) := by
  have hst := statuses_contains_name st
  constructor
  · intro hs
    simp only [set_status]
    rw [if_neg hne, hst]
    simp only [Bool.not_true, Bool.false_eq_true, if_false]
    rw [statusFlagSum_mkNextPoint]
    dsimp only
    rw [if_neg (show ¬((1 : Int) ≠ 1) by omega)]
    rw [hs]
    simp
  · intro hs
    simp only [set_status]
    rw [if_neg hne, hst]
    simp only [Bool.not_true, Bool.false_eq_true, if_false]
    rw [statusFlagSum_mkNextPoint]
    dsimp only
    rw [if_neg (show ¬((1 : Int) ≠ 1) by omega)]
    rw [hs]
    simp

theorem create_task_run (c : JobCtrl) (now : Nat) (store : Store)
    (jids : List String) (fl : Option (List (List (String × FVal)))) (recreate : Bool)
    (ps : List Point)
    (hjids : jids ≠ [])
    (hpre : ¬(task_exist c store = true ∧ recreate = false))
    (hbuild : buildPoints c now jids fl = .ok ps) :
    (sanity_check ps = false →
      create_task c now jids fl recreate store =
        (.ok false, if recreate then store.filter (fun p => !(matchPt c p)) else store)) ∧
    (sanity_check ps = true →
      create_task c now jids fl recreate store =
        (.ok true, (if recreate then store.filter (fun p => !(matchPt c p)) else store) ++ ps)) := by
  have hcond : (task_exist c store && !recreate) = false := by
    cases hte : task_exist c store with
    | false => rfl
    | true =>
      cases hrec : recreate with
      | true => rfl
      | false => exact absurd ⟨hte, hrec⟩ hpre
  constructor
  · intro hs
    simp only [create_task]
    rw [if_neg hjids, hcond]
    simp only [Bool.false_eq_true, if_false]
    rw [hbuild]
    dsimp only
    rw [hs]
    simp
  · intro hs
    simp only [create_task]
    rw [if_neg hjids, hcond]
    simp only [Bool.false_eq_true, if_false]
    rw [hbuild]
    dsimp only
    rw [hs]
    simp

theorem lookup_mem_keys {β : Type} {m : List (String × β)} {k : String} {v : β}
    (h : m.lookup k = some v) : k ∈ m.map Prod.fst := by
  induction m with
  | nil => simp [List.lookup] at h
  | cons e rest ih =>
    simp only [List.lookup] at h
    by_cases hk : (k == e.1) = true
    · simp [eq_of_beq hk]
    · rw [Bool.not_eq_true] at hk
      rw [hk] at h
      simp [ih h]

theorem mem_fieldKeys_of_lookup {pts : List Point} {q : Point} {f : String} {v : FVal}
    (hq : q ∈ pts) (hv : q.fields.lookup f = some v) : f ∈ fieldKeys pts := by
  unfold fieldKeys
  rw [List.mem_dedup, List.mem_flatten]
  exact ⟨q.fields.map Prod.fst, List.mem_map_of_mem _ hq, lookup_mem_keys hv⟩

theorem lookup_strip_entries {jpts : List Point} {f : String} {v : FVal}
    (hval : lastField jpts f = some v)
    (hrt : stripLast ("last_" ++ f) = f) :
    ∀ (ks : List String), f ∈ ks → (∀ g ∈ ks, stripLast ("last_" ++ g) = f → g = f) →
      ((ks.filterMap (fun g => (lastField jpts g).map (fun w => ("last_" ++ g, w)))).map
        (fun e => (stripLast e.1, e.2))).lookup f = some v := by
  intro ks
  induction ks with
  | nil => intro hmem _; simp at hmem
  | cons g rest ih =>
    intro hmem hnc
    by_cases hgf : stripLast ("last_" ++ g) = f
    · have hg : g = f := hnc g (List.mem_cons_self g rest) hgf
      subst hg
      rw [List.filterMap_cons, hval]
      simp only [Option.map_some', List.map_cons]  -- hope names right
      simp [List.lookup, hrt]
    · have hmem' : f ∈ rest := by
        rcases List.mem_cons.mp hmem with h' | h'
        · exact absurd (h' ▸ hrt) (h' ▸ hgf)
        · exact h'
      have hnc' : ∀ g' ∈ rest, stripLast ("last_" ++ g') = f → g' = f :=
        fun g' hg' => hnc g' (List.mem_cons_of_mem g hg')
      rw [List.filterMap_cons]
      cases hlf : lastField jpts g with
      | none => exact ih hmem' hnc'
      | some w =>
        simp only [Option.map_some', List.map_cons]
        have hne : (f == stripLast ("last_" ++ g)) = false :=
          beq_false_of_ne (fun hc => hgf hc.symm)
        simp only [List.lookup, hne]
        exact ih hmem' hnc'

theorem lookup_reformat_prevRecord {jpts : List Point} {q : Point} {f : String} {v : FVal}
    (hlast : jpts.getLast? = some q) (hf : q.fields.lookup f = some v)
    (htime : f ≠ "time")
    (hrt : stripLast ("last_" ++ f) = f)
    (hnc : ∀ g ∈ fieldKeys jpts, stripLast ("last_" ++ g) = f → g = f) :
    (reformatRecord (prevRecord jpts)).lookup f = some v := by
  have hval : lastField jpts f = some v := lastField_of_getLast hlast hf
  have hmem : f ∈ fieldKeys jpts := mem_fieldKeys_of_lookup (getLast?_mem hlast) hf
  simp only [reformatRecord, prevRecord, List.map_cons]
  have hts : stripLast "time" = "time" := rfl
  have hne : (f == stripLast "time") = false := by
    rw [hts]; exact beq_false_of_ne htime
  simp only [List.lookup, hne]
  exact lookup_strip_entries hval hrt (fieldKeys jpts) hmem hnc

theorem mem_jobIds {pts : List Point} {j : String} :
    j ∈ jobIds pts ↔ ∃ p ∈ pts, ptId p = j := by
  unfold jobIds
  rw [List.mem_dedup, List.mem_map]

theorem jobGroup_getLast {pts : List Point} {j : String}
    (hj : j ∈ jobIds pts) :
    ∃ q, (jobGroup pts j).getLast? = some q ∧ q ∈ pts ∧ ptId q = j := by
  obtain ⟨p, hp, hid⟩ := mem_jobIds.mp hj
  have hpg : p ∈ jobGroup pts j := by
    unfold jobGroup
    rw [List.mem_filter]
    exact ⟨hp, by simp [hid]⟩
  have hne : jobGroup pts j ≠ [] := List.ne_nil_of_mem hpg
  refine ⟨(jobGroup pts j).getLast hne, List.getLast?_eq_getLast_of_ne_nil hne, ?_, ?_⟩
  · have hmem : (jobGroup pts j).getLast hne ∈ jobGroup pts j := List.getLast_mem hne
    exact List.mem_of_mem_filter hmem
  · have hmem : (jobGroup pts j).getLast hne ∈ jobGroup pts j := List.getLast_mem hne
    unfold jobGroup at hmem
    rw [List.mem_filter] at hmem
    exact eq_of_beq hmem.2

theorem statusPoint_lookup {p : Point} (hp : statusPoint p) :
    ∃ s ∈ JobStatus.statuses,
      p.fields.lookup s = some (.int 1) ∧
        ∀ sts ∈ JobStatus.statuses, ∃ n : Int,
          p.fields.lookup sts = some (.int n) ∧ (0 < n ↔ sts = s) := by
  obtain ⟨s, hs, h1, h0⟩ := hp
  refine ⟨s, hs, h1, fun sts hsts => ?_⟩
  by_cases he : sts = s
  · exact ⟨1, he ▸ h1, by simp [he]⟩
  · exact ⟨0, h0 sts hsts he, by simp [he]⟩

theorem get_jobs_ok {c : JobCtrl} {store : Store} (hinv : statusInv c store) :
    get_jobs c store = .ok (JobStatus.statuses.map
      (fun sts => (sts, (jobIds (taskPoints c store)).filter
        (fun j => classifyB (taskPoints c store) j sts)))) := by
  unfold get_jobs
  apply tryMap_ok
  intro sts hsts
  have hfil : tryFilter
      (fun j => cmpGt0 (lastField (jobGroup (taskPoints c store) j) sts))
      (jobIds (taskPoints c store)) =
      .ok ((jobIds (taskPoints c store)).filter
        (fun j => classifyB (taskPoints c store) j sts)) := by
    apply tryFilter_ok
    intro j hj
    obtain ⟨q, hql, hqp, _⟩ := jobGroup_getLast hj
    obtain ⟨s, hs, h1, hall⟩ := statusPoint_lookup (hinv q hqp)
    obtain ⟨n, hn, _⟩ := hall sts hsts
    have hlf : lastField (jobGroup (taskPoints c store) j) sts = some (.int n) :=
      lastField_of_getLast hql hn
    rw [hlf]
    simp [cmpGt0, classifyB, hlf]
  rw [hfil]
  rfl

theorem exceptErrorBind {ε α β : Type} (e : ε) (f : α → Except ε β) :
    ((Except.error e : Except ε α) >>= f) = .error e := rfl

theorem exceptMapOk {ε α β : Type} (x : α) (f : α → β) :
    (Except.ok x : Except ε α).map f = .ok (f x) := rfl

theorem tryMap_fst {α β : Type} (f : α → Except String (α × β))
    (hf : ∀ a b, f a = .ok b → b.1 = a) :
    ∀ {l : List α} {r : List (α × β)}, tryMap f l = .ok r → r.map Prod.fst = l := by
  intro l
  induction l with
  | nil =>
    intro r h
    simp only [tryMap] at h
    injection h with h2
    rw [← h2]
    rfl
  | cons a as ih =>
    intro r h
    simp only [tryMap] at h
    cases hfa : f a with
    | error e =>
      rw [hfa, exceptErrorBind] at h
      exact Except.noConfusion h
    | ok b =>
      rw [hfa, exceptOkBind] at h
      cases hrest : tryMap f as with
      | error e =>
        rw [hrest, exceptErrorBind] at h
        exact Except.noConfusion h
      | ok rs =>
        rw [hrest, exceptOkBind, exceptPure] at h
        injection h with h2
        rw [← h2]
        simp [hf a b hfa, ih hrest]

theorem get_jobs_ok_keys {c : JobCtrl} {store : Store} {m : List (String × List String)}
    (h : get_jobs c store = .ok m) : m.map Prod.fst = JobStatus.statuses := by
  unfold get_jobs at h
  refine tryMap_fst _ ?_ h
  intro sts b hb
  cases hfil : tryFilter
      (fun j => cmpGt0 (lastField (jobGroup (taskPoints c store) j) sts))
      (jobIds (taskPoints c store)) with
  | error e => rw [hfil] at hb; exact Except.noConfusion hb
  | ok l =>
    rw [hfil, exceptMapOk] at hb
    injection hb with h2
    rw [← h2]

theorem getter_error (c : JobCtrl) (store : Store) (k : String)
    (hk : k ∉ JobStatus.statuses) :
    (∃ e, (get_jobs c store >>= fun m => dictGet m k) = .error e) ∧
    ((∃ m, get_jobs c store = .ok m) →
      (get_jobs c store >>= fun m => dictGet m k) = .error ("KeyError: " ++ k)) := by
  constructor
  · cases hgj : get_jobs c store with
    | error e => exact ⟨e, by rw [exceptErrorBind]⟩
    | ok m =>
      refine ⟨"KeyError: " ++ k, ?_⟩
      rw [exceptOkBind]
      unfold dictGet
      rw [lookup_eq_none_of_not_mem m k (by rw [get_jobs_ok_keys hgj]; exact hk)]
  · rintro ⟨m, hgj⟩
    rw [hgj, exceptOkBind]
    unfold dictGet
    rw [lookup_eq_none_of_not_mem m k (by rw [get_jobs_ok_keys hgj]; exact hk)]


/-! ## Claim C5 -/

/-- C5: for every list of points, `sanity_check` returns false iff some point
has a field key that also appears among its tag keys; it is a pure function
of the points (no side effects, modelled by being a Lean function). -/
theorem sanity_check_false_iff (data : List Point) :
    sanity_check data = false ↔
      ∃ p ∈ data, ∃ kv ∈ p.fields, kv.1 ∈ p.tags.map Prod.fst := by
  rw [← Bool.not_eq_true, sanity_check]
  simp [List.all_eq_true, List.any_eq_true]

/-! ## Claim C8 -/

/-- C8 counterexample: the claim says construction fails for an empty task
name, but `JobCtrl.__init__` only rejects an absent (`None`) task — the
empty string is accepted. -/
theorem init_accepts_empty_task :
    JobCtrl.init (some "") "camp" 0 = .ok ⟨"", "camp", 0⟩ := rfl

/-- C8 (amended): construction fails (fatally) exactly when the task
argument is absent; every present task name — the empty string included —
is accepted, and the controller derives the tag-equality filter
`"task" = '<t>' AND "campaign" = '<c>' AND "block" = '<b>'`. -/
theorem jobCtrl_init_spec :
    (∀ campaign block, JobCtrl.init none campaign block =
        .error "[JobCtrl::init] The task field is mandatory") ∧
      ∀ t campaign block,
        JobCtrl.init (some t) campaign block = .ok ⟨t, campaign, block⟩ ∧
          (JobCtrl.mk t campaign block).match_tags =
            "\"task\" = \x27" ++ t ++ "\x27 AND \"campaign\" = \x27" ++ campaign ++
              "\x27 AND \"block\" = \x27" ++ toString block ++ "\x27" := by
  refine ⟨fun _ _ => rfl, fun t campaign block => ⟨rfl, ?_⟩⟩
  exact buildMatchTags_triple t campaign (toString block)

/-! ## Claim C6 -/

/-- C6: `create_task` fails fatally, before any write or delete, when the
job-id list is empty, and likewise when the task already exists and
`recreate` is false; in both cases the store is returned untouched. -/
theorem create_task_preconditions (c : JobCtrl) (now : Nat)
    (fl : Option (List (List (String × FVal)))) (recreate : Bool) (store : Store) :
    create_task c now [] fl recreate store =
        (.error "[JobCtrl::createTask] Job ids list is empty", store) ∧
      ∀ jids, jids ≠ [] → task_exist c store = true →
        create_task c now jids fl false store =
          (.error "[JobCtrl::createTask] Task already exist for campaign", store) := by
  constructor
  · simp [create_task]
  · intro jids hne hex
    simp [create_task, hne, hex]

theorem create_task_preconditions_witness :
    ((["1"] : List String) ≠ [] ∧ task_exist demoCtrl doneStore = true) ∧
      create_task demoCtrl 9 ["1"] none false doneStore =
        (.error "[JobCtrl::createTask] Task already exist for campaign", doneStore) :=
  ⟨⟨by decide, by decide⟩,
    (create_task_preconditions demoCtrl 9 none false doneStore).2 ["1"] (by decide) (by decide)⟩

/-! ## Claim C2 -/

/-- C2: on a task whose only job's most recent status is DONE (so the claim
and the spec say `task_completed()` returns true), the code instead raises
`KeyError`: the reformatted sum row holds keys `sum_IDLE` … `sum_DONE`
(the status fields are written uppercase) but the source reads the
lowercase key `sum_done`. -/
theorem task_completed_raises_on_done_task :
    task_completed demoCtrl doneStore = .error "KeyError: sum_done" ∧
      lastField (jobPoints demoCtrl doneStore "0") "DONE" = some (.int 1) ∧
      task_completed demoCtrl ([] : Store) = .ok false := by
  refine ⟨by decide, by decide, by decide⟩

/-! ## Claim C3 -/

/-- C3: after `create_task(["5"])`, `failed`, `running`, `failed`, `done`,
the job has exactly 2 historical points with a truthy FAILED field (so the
claim and the spec say `get_nretries` returns 2), but the code raises
`KeyError`: history rows carry the uppercase column `FAILED`, while the
source reads `point['failed']`. -/
theorem get_nretries_raises :
    get_nretries demoCtrl retryStore "5" = .error "KeyError: failed" ∧
      (jobPoints demoCtrl retryStore "5").countP
        (fun p => ((p.fields.lookup "FAILED").map FVal.truthy).getD false) = 2 := by
  refine ⟨by decide, by decide⟩

/-! ## Claim C9 -/

/-- C9: on a task with no points `task_end_time()` does return nothing, but
on a completed task (where the claim says it returns the latest DONE
timestamp) it raises: `task_completed()` itself raises `KeyError: sum_done`,
and even past that the query reads the lowercase field `done`, which no
point ever carries, so `task_sts[0]` would raise `IndexError`. -/
theorem task_end_time_raises_on_done_task :
    task_end_time demoCtrl ([] : Store) = .ok none ∧
      task_end_time demoCtrl doneStore = .error "KeyError: sum_done" ∧
      taskPoints demoCtrl doneStore ≠ [] ∧
      (taskPoints demoCtrl doneStore).filter
        (fun p => (p.fields.lookup "done").isSome) = [] := by
  refine ⟨by decide, by decide, by decide, by decide⟩

/-! ## Claim C7, counterexample -/

/-- C7 counterexample: with `recreate=true` and a point set that fails
validation, `create_task` returns false — but the store's point set is NOT
unchanged: the pre-validation `DELETE` already removed the task's prior
points. -/
theorem create_task_invalid_fields_still_deletes :
    buildPoints demoCtrl 5 ["0"] (some [[("task", FVal.int 1)]]) = .ok [c7BuiltPoint] ∧
      sanity_check [c7BuiltPoint] = false ∧
      create_task demoCtrl 5 ["0"] (some [[("task", FVal.int 1)]]) true seedStore =
        (.ok false, ([] : Store)) ∧
      seedStore ≠ ([] : Store) := by
  refine ⟨by decide, by decide, by decide, by decide⟩


/-! ## Claim C4 -/

/-- C4 counterexample: the auxiliary field `last_x` is present (value 7) on
the job's most recent prior point, the next `set_status` succeeds with no
caller override, and yet the written point does not contain `last_x`
unchanged: the store's `last(*)` aggregation renames the column to
`last_last_x` and `reformat_last` strips every occurrence of `last_`,
so the field is carried forward under the mangled name `x`. -/
theorem set_status_mangles_last_prefixed_field :
    auxMangleStore.getLast?.map (fun p => p.fields.lookup "last_x") =
        some (some (.int 7)) ∧
      (set_status demoCtrl 2 (some "0") .DONE none auxMangleStore).1 = .ok true ∧
      (set_status demoCtrl 2 (some "0") .DONE none auxMangleStore).2.getLast?.map
        (fun p => (p.fields.lookup "last_x", p.fields.lookup "x")) =
        some (none, some (.int 7)) := by
  refine ⟨by decide, by decide, by decide⟩

/-- C4 (amended): for every job and every auxiliary (non-status, non-time)
field on the job's most recent prior point whose name survives the store's
`last_`-prefix round trip (no other field key of the job collides with it
after prefix stripping, and its own stripped name is itself), a successful
`set_status` writes a point carrying that field unchanged, unless the
caller-supplied fields mapping overrides it, in which case the caller value
takes precedence. -/
theorem set_status_aux_field_persist
    (c : JobCtrl) (now : Nat) (store : Store) (jid : String) (st : JobStatus)
    (sfl : Option (List (String × FVal))) (f : String) (v : FVal) (q : Point)
    (hlast : (jobPoints c store jid).getLast? = some q)
    (hf : q.fields.lookup f = some v)
    (hsts : f ∉ JobStatus.statuses)
    (htime : f ≠ "time")
    (hrt : stripLast ("last_" ++ f) = f)
    (hnc : ∀ g ∈ fieldKeys (jobPoints c store jid), stripLast ("last_" ++ g) = f → g = f)
    (hnd : ((sfl.getD []).map Prod.fst).Nodup)
    (hsane : sanity_check [mkNextPoint c now jid st sfl
        (reformatRecord (prevRecord (jobPoints c store jid)))] = true) :
    set_status c now (some jid) st sfl store =
        (.ok true, store ++ [mkNextPoint c now jid st sfl
          (reformatRecord (prevRecord (jobPoints c store jid)))]) ∧
      (mkNextPoint c now jid st sfl
          (reformatRecord (prevRecord (jobPoints c store jid)))).fields.lookup f =
        some (((sfl.getD []).lookup f).getD v) := by
  have hjob : jobPoints c store jid ≠ [] := by
    intro hc; rw [hc] at hlast; simp at hlast
  refine ⟨(set_status_run c now jid st sfl store hjob).2 hsane, ?_⟩
  have hprev : (reformatRecord (prevRecord (jobPoints c store jid))).lookup f = some v :=
    lookup_reformat_prevRecord hlast hf htime hrt hnc
  rw [mkNextPoint_fields]
  have hfresh : f ∉ (updAssoc (JobStatus.statuses.map (fun s => (s, FVal.int 0))) st.name
      (FVal.int 1)).map Prod.fst := by
    have hbase : (updAssoc (JobStatus.statuses.map (fun s => (s, FVal.int 0))) st.name
        (FVal.int 1)).map Prod.fst = JobStatus.statuses := by
      cases st <;> decide
    rw [hbase]; exact hsts
  cases sfl with
  | none =>
    dsimp only
    exact lookup_mergeFields_fresh htime hprev hfresh
  | some l =>
    dsimp only
    have hndl : (l.map Prod.fst).Nodup := by simpa using hnd
    have hupd := lookup_updateAll (reformatRecord (prevRecord (jobPoints c store jid))) l f hndl
    cases hlf : l.lookup f with
    | none =>
      rw [hlf] at hupd
      have hupd' : (updateAll (reformatRecord (prevRecord (jobPoints c store jid))) l).lookup f =
          some v := by rw [hupd]; exact hprev
      have hexp : (((some l).getD ([] : List (String × FVal))).lookup f).getD v = v := by
        simp [hlf]
      rw [hexp]
      exact lookup_mergeFields_fresh htime hupd' hfresh
    | some w =>
      rw [hlf] at hupd
      have hupd' : (updateAll (reformatRecord (prevRecord (jobPoints c store jid))) l).lookup f =
          some w := by rw [hupd]; rfl
      have hexp : (((some l).getD ([] : List (String × FVal))).lookup f).getD v = w := by
        simp [hlf]
      rw [hexp]
      exact lookup_mergeFields_fresh htime hupd' hfresh
theorem set_status_aux_field_persist_witness :
    ((jobPoints demoCtrl auxStore "0").getLast? = some auxPt ∧
      auxPt.fields.lookup "x" = some (.int 5) ∧
      "x" ∉ JobStatus.statuses ∧
      "x" ≠ "time" ∧
      stripLast ("last_" ++ "x") = "x" ∧
      (∀ g ∈ fieldKeys (jobPoints demoCtrl auxStore "0"),
        stripLast ("last_" ++ g) = "x" → g = "x") ∧
      ((((none : Option (List (String × FVal))).getD []).map Prod.fst).Nodup) ∧
      sanity_check [mkNextPoint demoCtrl 3 "0" .DONE none
        (reformatRecord (prevRecord (jobPoints demoCtrl auxStore "0")))] = true) ∧
    (mkNextPoint demoCtrl 3 "0" .DONE none
        (reformatRecord (prevRecord (jobPoints demoCtrl auxStore "0")))).fields.lookup "x" =
      some ((((none : Option (List (String × FVal))).getD []).lookup "x").getD (.int 5)) :=
  ⟨⟨by decide, by decide, by decide, by decide, by decide, by decide, by decide, by decide⟩,
    (set_status_aux_field_persist demoCtrl 3 auxStore "0" .DONE none "x" (.int 5) auxPt
      (by decide) (by decide) (by decide) (by decide) (by decide) (by decide)
      (by decide) (by decide)).2⟩

/-! ## Claim C1 -/

/-- C1: under the per-point invariant (each task point has the four status
flags as integers, exactly one of them 1, the rest 0), `get_jobs` succeeds
and returns the four status buckets in declaration order; a job id with at
least one point appears in a bucket exactly when the last recorded value of
that status field is positive, and appears in exactly one bucket; a job id
with no points appears in no bucket. -/
theorem get_jobs_buckets (c : JobCtrl) (store : Store) (hinv : statusInv c store) :
    ∃ buckets,
      get_jobs c store = .ok buckets ∧
      buckets.map Prod.fst = JobStatus.statuses ∧
      (∀ j, (∃ p ∈ taskPoints c store, ptId p = j) →
        (∀ sts ∈ JobStatus.statuses,
          (j ∈ bucketOf buckets sts ↔
            ∃ n : Int, lastField (jobGroup (taskPoints c store) j) sts = some (.int n) ∧ 0 < n)) ∧
        ∃ sts ∈ JobStatus.statuses, j ∈ bucketOf buckets sts ∧
          ∀ sts' ∈ JobStatus.statuses, j ∈ bucketOf buckets sts' → sts' = sts) ∧
      ∀ j, (¬ ∃ p ∈ taskPoints c store, ptId p = j) →
        ∀ sts, j ∉ bucketOf buckets sts := by
  refine ⟨_, get_jobs_ok hinv, ?_, ?_, ?_⟩
  · rw [List.map_map]
    exact List.map_id _
  · intro j hj
    have hjid : j ∈ jobIds (taskPoints c store) := mem_jobIds.mpr hj
    have hbucket : ∀ sts ∈ JobStatus.statuses,
        bucketOf (JobStatus.statuses.map
          (fun sts => (sts, (jobIds (taskPoints c store)).filter
            (fun j => classifyB (taskPoints c store) j sts)))) sts =
          (jobIds (taskPoints c store)).filter
            (fun j => classifyB (taskPoints c store) j sts) := by
      intro sts hsts
      unfold bucketOf
      rw [lookup_map_pair _ _ _ hsts]
      rfl
    constructor
    · intro sts hsts
      rw [hbucket sts hsts, List.mem_filter]
      constructor
      · rintro ⟨_, hcl⟩
        unfold classifyB at hcl
        cases hlf : lastField (jobGroup (taskPoints c store) j) sts with
        | none => rw [hlf] at hcl; simp at hcl
        | some w =>
          cases w with
          | int n =>
            rw [hlf] at hcl
            simp only [decide_eq_true_eq] at hcl
            exact ⟨n, rfl, hcl⟩
          | str s => rw [hlf] at hcl; simp at hcl
      · rintro ⟨n, hn, hpos⟩
        refine ⟨hjid, ?_⟩
        unfold classifyB
        rw [hn]
        simpa using hpos
    · obtain ⟨q, hql, hqp, _⟩ := jobGroup_getLast hjid
      obtain ⟨s, hs, h1, hall⟩ := statusPoint_lookup (hinv q hqp)
      refine ⟨s, hs, ?_, ?_⟩
      · rw [hbucket s hs, List.mem_filter]
        refine ⟨hjid, ?_⟩
        unfold classifyB
        rw [lastField_of_getLast hql h1]
        decide
      · intro sts' hsts' hmem
        rw [hbucket sts' hsts', List.mem_filter] at hmem
        obtain ⟨n, hn, hiff⟩ := hall sts' hsts'
        have hcl := hmem.2
        unfold classifyB at hcl
        rw [lastField_of_getLast hql hn] at hcl
        simp only [decide_eq_true_eq] at hcl
        exact hiff.mp hcl
  · intro j hj sts
    have hjid : j ∉ jobIds (taskPoints c store) := fun hc => hj (mem_jobIds.mp hc)
    by_cases hsts : sts ∈ JobStatus.statuses
    · unfold bucketOf
      rw [lookup_map_pair _ _ _ hsts]
      intro hmem
      rw [Option.getD_some, List.mem_filter] at hmem
      exact hjid hmem.1
    · unfold bucketOf
      rw [lookup_map_pair_none _ _ _ hsts]
      simp
theorem get_jobs_buckets_witness :
    statusInv demoCtrl doneStore ∧
      ∃ buckets, get_jobs demoCtrl doneStore = .ok buckets :=
  ⟨by decide,
    (get_jobs_buckets demoCtrl doneStore (by decide)).elim
      (fun b hb => ⟨b, hb.1⟩)⟩

/-! ## Claim C10 -/

/-- C10: for every store, `get_running`, `get_failed` and `get_done` raise
and never return a list — under the per-point invariant (where `get_jobs`
itself succeeds with the four uppercase bucket keys) the error is precisely
the key-lookup failure on the lowercase keys `running`/`failed`/`done` —
while `get_idle`, which uses the uppercase key `IDLE`, returns a list. -/
theorem lowercase_getters (c : JobCtrl) (store : Store) :
    ((∃ e, get_running c store = .error e) ∧
      (∃ e, get_failed c store = .error e) ∧
      (∃ e, get_done c store = .error e)) ∧
    (statusInv c store →
      get_running c store = .error "KeyError: running" ∧
      get_failed c store = .error "KeyError: failed" ∧
      get_done c store = .error "KeyError: done" ∧
      ∃ l, get_idle c store = .ok l) := by
  refine ⟨⟨(getter_error c store "running" (by decide)).1,
          (getter_error c store "failed" (by decide)).1,
          (getter_error c store "done" (by decide)).1⟩, ?_⟩
  intro hinv
  have hgj := get_jobs_ok hinv
  refine ⟨?_, ?_, ?_, ?_⟩
  · unfold get_running
    have h := (getter_error c store "running" (by decide)).2 ⟨_, hgj⟩
    rw [show ("KeyError: " ++ "running" : String) = "KeyError: running" by decide] at h
    exact h
  · unfold get_failed
    have h := (getter_error c store "failed" (by decide)).2 ⟨_, hgj⟩
    rw [show ("KeyError: " ++ "failed" : String) = "KeyError: failed" by decide] at h
    exact h
  · unfold get_done
    have h := (getter_error c store "done" (by decide)).2 ⟨_, hgj⟩
    rw [show ("KeyError: " ++ "done" : String) = "KeyError: done" by decide] at h
    exact h
  · unfold get_idle
    rw [hgj, exceptOkBind]
    unfold dictGet
    rw [lookup_map_pair _ _ _ (show "IDLE" ∈ JobStatus.statuses by decide)]
    exact ⟨_, rfl⟩
theorem lowercase_getters_witness :
    statusInv demoCtrl doneStore ∧
      get_running demoCtrl doneStore = .error "KeyError: running" ∧
      get_failed demoCtrl doneStore = .error "KeyError: failed" ∧
      get_done demoCtrl doneStore = .error "KeyError: done" ∧
      ∃ l, get_idle demoCtrl doneStore = .ok l :=
  ⟨by decide, (lowercase_getters demoCtrl doneStore).2 (by decide)⟩

/-! ## Claim C7, amended -/

/-- C7 (amended): when a built point set fails validation, `create_task` and
`set_status` return `false` without writing any point, rather than raising;
the store is unchanged except that `create_task` with `recreate = true` has
already deleted the task's prior points before validation runs.  When
validation passes, the write is performed and its success boolean returned. -/
theorem validation_gates_writes
    (c : JobCtrl) (now : Nat) (store : Store)
    (jids : List String) (fl : Option (List (List (String × FVal)))) (recreate : Bool)
    (ps : List Point) (jid : String) (st : JobStatus)
    (sfl : Option (List (String × FVal)))
    (hjids : jids ≠ [])
    (hpre : ¬(task_exist c store = true ∧ recreate = false))
    (hbuild : buildPoints c now jids fl = .ok ps)
    (hjob : jobPoints c store jid ≠ []) :
    ((sanity_check ps = false →
        create_task c now jids fl recreate store =
          (.ok false, if recreate then store.filter (fun p => !(matchPt c p)) else store)) ∧
      (sanity_check ps = true →
        create_task c now jids fl recreate store =
          (.ok true,
            (if recreate then store.filter (fun p => !(matchPt c p)) else store) ++ ps))) ∧
    ((sanity_check [mkNextPoint c now jid st sfl
          (reformatRecord (prevRecord (jobPoints c store jid)))] = false →
        set_status c now (some jid) st sfl store = (.ok false, store)) ∧
      (sanity_check [mkNextPoint c now jid st sfl
          (reformatRecord (prevRecord (jobPoints c store jid)))] = true →
        set_status c now (some jid) st sfl store =
          (.ok true, store ++ [mkNextPoint c now jid st sfl
            (reformatRecord (prevRecord (jobPoints c store jid)))]))) :=
  ⟨create_task_run c now store jids fl recreate ps hjids hpre hbuild,
    set_status_run c now jid st sfl store hjob⟩

theorem validation_gates_writes_witness :
    ((["1"] : List String) ≠ [] ∧
      ¬(task_exist demoCtrl seedStore = true ∧ true = false) ∧
      buildPoints demoCtrl 7 ["1"] none = .ok [c7WitnessPoint] ∧
      jobPoints demoCtrl seedStore "0" ≠ []) ∧
    set_status demoCtrl 7 (some "0") .RUNNING none seedStore =
      (.ok true, seedStore ++ [mkNextPoint demoCtrl 7 "0" .RUNNING none
        (reformatRecord (prevRecord (jobPoints demoCtrl seedStore "0")))]) :=
  ⟨⟨by decide, by decide, by decide, by decide⟩,
    ((validation_gates_writes demoCtrl 7 seedStore ["1"] none true [c7WitnessPoint]
        "0" .RUNNING none (by decide) (by decide) (by decide) (by decide)).2).2
      (by decide)⟩

end Dynauto
